import Mathlib

/-!
Verification of the message-relayer core (prover.ts, multicaller.ts, utils.ts)
against its natural-language specification.

The TypeScript code is shallowly embedded: JS numbers that are used as block
heights and watermark counters are modelled as `Int` (JS numbers are signed and
the reorg arithmetic `latest - reorgSafetyDepth` can genuinely go negative);
gas quantities, which are multiplied by a fractional calibration multiplier
(1.1), are modelled as `ℚ`; operations that can throw are modelled with
`Option`/`Except`.
-/

namespace MessageRelayer

/-- Persisted watermark state (`MessageRelayerState` in service_types, owned by
`Prover` in prover.ts). -/
structure MessageRelayerState where
  highestKnownL2 : Int
  highestProvenL2 : Int
  highestFinalizedL2 : Int
  deriving Repr, DecidableEq

/-- One pending proof submission (`CallWithMeta` in multicaller.ts).  The
opaque payload, hash and message descriptor are modelled as strings; the
error slot is `none` for the JS `null`. -/
structure CallWithMeta where
  target : String
  callData : String
  blockHeight : Int
  txHash : String
  message : String
  err : Option String
  deriving Repr, DecidableEq

/-- `Prover.init` (prover.ts lines 43-54): load the persisted state, default
all-zero when no record exists, then bump the proven and finalized watermarks
up to `fromL2TransactionIndex` when the loaded proven height is below it. -/
def init (persisted : Option MessageRelayerState)
    (fromL2TransactionIndex : Int) : MessageRelayerState :=
  let s := persisted.getD ⟨0, 0, 0⟩
  if s.highestProvenL2 < fromL2TransactionIndex then
    { s with highestProvenL2 := fromL2TransactionIndex
             highestFinalizedL2 := fromL2TransactionIndex }
  else s

/-- `Prover.handleL2Reorg` (prover.ts lines 63-84): record the new head, then
if the proven watermark is above `latest - reorgSafetyDepth` rewind it to that
value and roll the finalized watermark back by the same depth. -/
def handleL2Reorg (reorgSafetyDepth : Int) (s : MessageRelayerState)
    (latest : Int) : MessageRelayerState :=
  let s1 := { s with highestKnownL2 := latest }
  if s1.highestProvenL2 ≤ latest - reorgSafetyDepth then
    s1
  else
    let currentProven := s1.highestProvenL2
    let newProven := latest - reorgSafetyDepth
    let s2 := { s1 with highestProvenL2 := newProven }
    let diff := currentProven - newProven
    { s2 with highestFinalizedL2 := s2.highestFinalizedL2 - diff }

/-- `Prover.startScanHeight` (prover.ts lines 202-209): returns the height the
next scan starts at together with the new value of the `initalIteration`
flag (the flag is cleared on the first call and only read afterwards). -/
def startScanHeight (initalIteration : Bool) (s : MessageRelayerState) :
    Int × Bool :=
  if initalIteration then
    (s.highestFinalizedL2, false)
  else
    (s.highestProvenL2 + 1, initalIteration)

/-- `Prover.endScanHeight` (prover.ts lines 211-213). -/
def endScanHeight (l2blockConfirmations : Int) (s : MessageRelayerState) :
    Int :=
  s.highestKnownL2 - l2blockConfirmations

/-- The heights visited by the scan loop
`for (let h = start; h <= fin; h++)` of `handleMultipleBlock`
(prover.ts line 168), as a list; the fuel is exactly the number of
iterations the loop performs. -/
def scanLoopAux : Nat → Int → List Int
  | 0, _ => []
  | n + 1, h => h :: scanLoopAux n (h + 1)

/-- The full list of heights visited by the scan loop from `start` to `fin`
(empty when `fin < start`, matching the loop guard). -/
def scanHeights (start fin : Int) : List Int :=
  scanLoopAux (fin + 1 - start).toNat start

/-- The JS `Array.prototype.reduce` call of `updateHighestCheckedL2`
(prover.ts lines 216-221): no initial accumulator, so it throws a
`TypeError` on an empty array (modelled as `none`); otherwise it folds the
comparator over the tail starting from the head, keeping the call with the
strictly larger `blockHeight` (earlier call kept on ties). -/
def reduceMaxCall (calldatas : List CallWithMeta) : Option CallWithMeta :=
  match calldatas with
  | [] => none
  | c :: rest =>
    some (rest.foldl
      (fun maxCall currentCall =>
        if maxCall.blockHeight < currentCall.blockHeight then currentCall
        else maxCall) c)

/-- `Prover.updateHighestCheckedL2` (prover.ts lines 215-226): take the
maximum `blockHeight` of the list via `reduce` (throws on `[]`), subtract one
when positive, and advance `highestProvenL2` when the result strictly exceeds
it.  Returns the new state and the boolean the method returns; `none` models
the thrown `TypeError`. -/
def updateHighestCheckedL2 (s : MessageRelayerState)
    (calldatas : List CallWithMeta) : Option (MessageRelayerState × Bool) :=
  match reduceMaxCall calldatas with
  | none => none
  | some maxCall =>
    let highest0 := maxCall.blockHeight
    let highest := if 0 < highest0 then highest0 - 1 else highest0
    if highest ≤ s.highestProvenL2 then
      some (s, false)
    else
      some ({ s with highestProvenL2 := highest }, true)

/-- `Prover.handleMulticallResult` (prover.ts lines 180-200): partition the
attempted calls into succeeded (txHash not among the failed ones) and failed,
then advance the proven watermark with the succeeded list.  Returns the new
state together with the succeeded and failed lists (the succeeded list is
forwarded to `postMessage`, the failed one is logged); `none` models the
`TypeError` thrown by `updateHighestCheckedL2` on an empty succeeded list. -/
def handleMulticallResult (s : MessageRelayerState)
    (calleds faileds : List CallWithMeta) :
    Option (MessageRelayerState × List CallWithMeta × List CallWithMeta) :=
  let failedIds := faileds.map (fun failed => failed.txHash)
  let succeeds := calleds.filter (fun call => !(failedIds.contains call.txHash))
  match updateHighestCheckedL2 s succeeds with
  | none => none
  | some (s1, _updated) => some (s1, succeeds, faileds)

/-- Spec-side helper: the maximum `blockHeight` of the non-empty call list
`c :: rest`. -/
def maxBlockHeight (c : CallWithMeta) (rest : List CallWithMeta) : Int :=
  rest.foldl (fun a k => max a k.blockHeight) c.blockHeight

/-- The candidate proven height computed at prover.ts line 222: the maximum
observed height minus one, except that the decrement is guarded by
`if (0 < highest)`. -/
def provenCandidate (highest : Int) : Int :=
  if 0 < highest then highest - 1 else highest

/-- `handleL2Reorg` written out by cases, for use in proofs. -/
lemma handleL2Reorg_eq (D : Int) (s : MessageRelayerState) (L : Int) :
    handleL2Reorg D s L =
      if s.highestProvenL2 ≤ L - D then { s with highestKnownL2 := L }
      else
        { highestKnownL2 := L, highestProvenL2 := L - D,
          highestFinalizedL2 :=
            s.highestFinalizedL2 - (s.highestProvenL2 - (L - D)) } := by
  dsimp only [handleL2Reorg]

/-- The JS reduce of `updateHighestCheckedL2` computes the maximum
`blockHeight` of the list. -/
lemma reduceMaxCall_blockHeight (c : CallWithMeta) (rest : List CallWithMeta) :
    (rest.foldl
      (fun maxCall currentCall =>
        if maxCall.blockHeight < currentCall.blockHeight then currentCall
        else maxCall) c).blockHeight
      = rest.foldl (fun a k => max a k.blockHeight) c.blockHeight := by
  induction rest generalizing c with
  | nil => rfl
  | cons k rest ih =>
    simp only [List.foldl_cons]
    rw [ih]
    congr 1
    split <;> omega

/-- A concrete pending call originating from block 0 (used as a shared test
input below). -/
def sampleCall : CallWithMeta :=
  ⟨"portal", "0xdead", 0, "0xaaa", "msg0", none⟩

/-- C2: `updateHighestCheckedL2` on the empty list hits
`Array.prototype.reduce` with no initial accumulator, which throws a
`TypeError` (modelled as `none`); consequently `handleMulticallResult` throws
whenever every attempted call failed (the succeeded list is empty), instead
of being a no-op returning `false`. -/
theorem C2_empty_list_throws (s : MessageRelayerState)
    (calleds : List CallWithMeta) :
    updateHighestCheckedL2 s [] = none ∧
    handleMulticallResult s calleds calleds = none := by
  refine ⟨rfl, ?_⟩
  have hsucc : calleds.filter
      (fun call =>
        !((calleds.map (fun failed => failed.txHash)).contains call.txHash))
      = [] := by
    rw [List.filter_eq_nil_iff]
    intro a ha
    have hm : a.txHash ∈ calleds.map (fun failed => failed.txHash) :=
      List.mem_map_of_mem _ ha
    simp only [List.elem_eq_true_of_mem hm, Bool.not_true, Bool.false_eq_true,
      not_false_eq_true]
  dsimp only [handleMulticallResult]
  rw [hsucc]
  rfl

/-- C4 counterexample: `init` with no persisted record and
`fromL2TransactionIndex = 5` yields `highestProvenL2 = 5` but
`highestKnownL2 = 0`, violating `highestProvenL2 ≤ highestKnownL2`. -/
theorem C4_counterexample :
    (init none 5).highestKnownL2 < (init none 5).highestProvenL2 ∧
    (init none 5).highestKnownL2 = 0 ∧
    (init none 5).highestProvenL2 = 5 := by
  refine ⟨by decide, rfl, rfl⟩

/-- C4 amended: `handleL2Reorg` preserves the ordering
`highestFinalizedL2 ≤ highestProvenL2 ≤ highestKnownL2` whenever the safety
depth is non-negative and the prior state has
`highestFinalizedL2 ≤ highestProvenL2`; `init` with no persisted record
satisfies the full invariant when `fromL2TransactionIndex ≤ 0` (but not when
it is positive, and the reorg rollback can drive `highestFinalizedL2` below
zero). -/
theorem C4_amended (s : MessageRelayerState) (D L fromIdx : Int)
    (hD : 0 ≤ D) (hFP : s.highestFinalizedL2 ≤ s.highestProvenL2)
    (hIdx : fromIdx ≤ 0) :
    ((handleL2Reorg D s L).highestFinalizedL2 ≤
        (handleL2Reorg D s L).highestProvenL2 ∧
      (handleL2Reorg D s L).highestProvenL2 ≤
        (handleL2Reorg D s L).highestKnownL2) ∧
    (0 ≤ (init none fromIdx).highestFinalizedL2 ∧
      (init none fromIdx).highestFinalizedL2 ≤
        (init none fromIdx).highestProvenL2 ∧
      (init none fromIdx).highestProvenL2 ≤
        (init none fromIdx).highestKnownL2) := by
  constructor
  · rw [handleL2Reorg_eq]
    split <;> exact ⟨by dsimp only; omega, by dsimp only; omega⟩
  · have hinit : init none fromIdx = ⟨0, 0, 0⟩ := by
      dsimp only [init, Option.getD]
      rw [if_neg (not_lt.mpr hIdx)]
    rw [hinit]
    exact ⟨le_refl 0, le_refl 0, le_refl 0⟩

/-- C4 amended, witness: depth 2, head 7, state (10, 8, 3), start index 0. -/
theorem C4_amended_witness :
    (((handleL2Reorg 2 ⟨10, 8, 3⟩ 7).highestFinalizedL2 ≤
        (handleL2Reorg 2 ⟨10, 8, 3⟩ 7).highestProvenL2 ∧
      (handleL2Reorg 2 ⟨10, 8, 3⟩ 7).highestProvenL2 ≤
        (handleL2Reorg 2 ⟨10, 8, 3⟩ 7).highestKnownL2) ∧
    (0 ≤ (init none 0).highestFinalizedL2 ∧
      (init none 0).highestFinalizedL2 ≤ (init none 0).highestProvenL2 ∧
      (init none 0).highestProvenL2 ≤ (init none 0).highestKnownL2)) := by
  exact C4_amended ⟨10, 8, 3⟩ 2 7 0 (by decide) (by decide) (by decide)

/-- C5 counterexample: with `highestProvenL2 = -1` (reachable after a reorg
whose head is below the safety depth) and a single call from block 0, the
code clamps the candidate at 0 (`if (0 < highest) highest -= 1`), updates the
proven watermark to 0 and returns `true`, although the claim's candidate
`max blockHeight - 1 = -1` is not strictly greater than the current value. -/
theorem C5_counterexample :
    updateHighestCheckedL2 ⟨10, -1, -2⟩ [sampleCall] =
      some (⟨10, 0, -2⟩, true) ∧
    ¬ (-1 < sampleCall.blockHeight - 1) := by
  exact ⟨rfl, by decide⟩

/-- C5 amended: for a non-empty list, the candidate is the maximum
`blockHeight` minus one when that maximum is positive (and the maximum itself
otherwise); `highestProvenL2` is updated to the candidate exactly when the
candidate strictly exceeds it, `true` is returned exactly when an update
occurred, the other fields are untouched, and the proven watermark never
decreases. -/
theorem C5_amended (s : MessageRelayerState) (c : CallWithMeta)
    (rest : List CallWithMeta) :
    ∃ s1 b, updateHighestCheckedL2 s (c :: rest) = some (s1, b) ∧
      (b = true ↔
        s.highestProvenL2 < provenCandidate (maxBlockHeight c rest)) ∧
      s1.highestProvenL2 =
        (if s.highestProvenL2 < provenCandidate (maxBlockHeight c rest) then
          provenCandidate (maxBlockHeight c rest)
        else s.highestProvenL2) ∧
      s1.highestKnownL2 = s.highestKnownL2 ∧
      s1.highestFinalizedL2 = s.highestFinalizedL2 ∧
      s.highestProvenL2 ≤ s1.highestProvenL2 := by
  have hmax := reduceMaxCall_blockHeight c rest
  have hred : updateHighestCheckedL2 s (c :: rest) =
      if provenCandidate (maxBlockHeight c rest) ≤ s.highestProvenL2 then
        some (s, false)
      else
        some ({ s with
          highestProvenL2 := provenCandidate (maxBlockHeight c rest) }, true)
      := by
    dsimp only [updateHighestCheckedL2, reduceMaxCall, provenCandidate,
      maxBlockHeight]
    rw [hmax]
  by_cases h0 : provenCandidate (maxBlockHeight c rest) ≤ s.highestProvenL2
  · rw [hred, if_pos h0]
    refine ⟨s, false, rfl, ?_, ?_, rfl, rfl, le_refl _⟩
    · constructor
      · intro hb
        exact absurd hb (by decide)
      · intro hlt
        exact absurd hlt (by omega)
    · rw [if_neg (by omega)]
  · rw [hred, if_neg h0]
    refine ⟨_, true, rfl, ?_, ?_, rfl, rfl, ?_⟩
    · constructor
      · intro _
        omega
      · intro _
        rfl
    · dsimp only
      rw [if_pos (by omega)]
    · show s.highestProvenL2 ≤ provenCandidate (maxBlockHeight c rest)
      omega

/-- `Multicaller.computeExpectedMulticallGas` (multicaller.ts lines 88-90):
the single-call calibration value times the batch size times the calibration
multiplier. -/
def computeExpectedMulticallGas (singleCallGas gasMultiplier size : ℚ) : ℚ :=
  singleCallGas * size * gasMultiplier

/-- `Multicaller.isOvertargetGas` (multicaller.ts lines 37-39). -/
def isOvertargetGas (targetGas singleCallGas gasMultiplier size : ℚ) : Bool :=
  decide (targetGas <
    computeExpectedMulticallGas singleCallGas gasMultiplier size)

/-- `splitArray` (utils.ts lines 36-41): split at `Math.ceil(length / 2)`,
i.e. a ceiling-sized first half. -/
def splitArray {α : Type} (array : List α) : List α × List α :=
  let middle := (array.length + 1) / 2
  (array.take middle, array.drop middle)

/-- Does the character list start with `pat`? -/
def startsWithList : List Char → List Char → Bool
  | [], _ => true
  | _ :: _, [] => false
  | p :: ps, c :: cs => p == c && startsWithList ps cs

/-- Does the character list contain `pat` as a contiguous run? -/
def containsList (pat : List Char) : List Char → Bool
  | [] => startsWithList pat []
  | c :: cs => startsWithList pat (c :: cs) || containsList pat cs

/-- The block-gas-limit marker the estimation catch branch looks for
(multicaller.ts line 54). -/
def allowanceMarker : String := "gas required exceeds allowance"

/-- JS `err.message.includes('gas required exceeds allowance')`
(multicaller.ts line 54). -/
def msgIncludesAllowance (msg : String) : Bool :=
  containsList allowanceMarker.toList msg.toList

/-- The exception thrown on the estimation-success path of `multicall` when
the caller passed `null` for the callback: `callback(tx.hash, calls)` on
line 81 of multicaller.ts is then a call of `null`, a JS `TypeError`. -/
inductive MulticallThrow where
  | nullCallbackInvoked
  deriving Repr, DecidableEq

/-- `Multicaller.multicall` (multicaller.ts lines 41-84), with the chain
interactions abstracted: `est` is the aggregate gas-estimation oracle (its
`Except.error` carries the JS error message), `hasCallback` is whether the
`callback` argument is non-null, and `singleCallGas` is threaded explicitly
(the instance field the catch branch may reset to 0).  Transaction submission
and `tx.wait()` after a successful estimation are modelled as succeeding
(submission failure is out of scope).  The result is the returned failed-call
list together with the final `singleCallGas` and the number of estimations
performed on singleton batches; `Except.error` models the `TypeError` thrown
when the null callback is invoked.  The `fuel` argument bounds the recursion
depth; `none` models non-termination, which is unreachable for the non-empty
batches the prover submits. -/
def multicallF (est : List CallWithMeta → Except String ℚ)
    (hasCallback : Bool) :
    Nat → ℚ → List CallWithMeta →
      Option (Except MulticallThrow (List CallWithMeta × ℚ × Nat))
  | 0, _, _ => none
  | fuel + 1, singleCallGas, calls =>
    let selfCount : Nat := if calls.length = 1 then 1 else 0
    match est calls with
    | .ok _estimatedGas =>
      if hasCallback then some (.ok ([], singleCallGas, selfCount))
      else some (.error .nullCallbackInvoked)
    | .error msg =>
      let gas1 := if msgIncludesAllowance msg then 0 else singleCallGas
      if calls.length = 1 then
        some (.ok (calls.map (fun c => { c with err := some msg }), gas1,
          selfCount))
      else
        match multicallF est hasCallback fuel gas1 (splitArray calls).1 with
        | none => none
        | some (.error e) => some (.error e)
        | some (.ok (results1, gas2, n1)) =>
          match multicallF est hasCallback fuel gas2 (splitArray calls).2 with
          | none => none
          | some (.error e) => some (.error e)
          | some (.ok (results2, gas3, n2)) =>
            some (.ok (results1 ++ results2, gas3, selfCount + n1 + n2))

/-- `multicall` with enough fuel for every batch the recursion halves down
to singletons (depth ≤ length for non-empty batches, plus one for the
estimation-success branch). -/
def multicall (est : List CallWithMeta → Except String ℚ)
    (hasCallback : Bool) (singleCallGas : ℚ) (calls : List CallWithMeta) :
    Option (Except MulticallThrow (List CallWithMeta × ℚ × Nat)) :=
  multicallF est hasCallback (calls.length + 1) singleCallGas calls

/-- The prover's flush call sites (prover.ts lines 141-144 and 173-177) are
`this.multicaller?.multicall(calldatas, null)`: the callback argument is the
JS `null`. -/
def flushMulticall (est : List CallWithMeta → Except String ℚ)
    (singleCallGas : ℚ) (calldatas : List CallWithMeta) :
    Option (Except MulticallThrow (List CallWithMeta × ℚ × Nat)) :=
  multicall est false singleCallGas calldatas

/-- Membership in the scan loop's visit list. -/
lemma mem_scanLoopAux (n : Nat) :
    ∀ h x : Int, x ∈ scanLoopAux n h ↔ h ≤ x ∧ x < h + (n : Int) := by
  induction n with
  | zero =>
    intro h x
    simp only [scanLoopAux, List.not_mem_nil, false_iff]
    omega
  | succ m ih =>
    intro h x
    simp only [scanLoopAux, List.mem_cons, ih]
    omega

/-- Membership in `scanHeights`: exactly the heights between `start` and
`fin` inclusive. -/
lemma mem_scanHeights (start fin x : Int) :
    x ∈ scanHeights start fin ↔ start ≤ x ∧ x ≤ fin := by
  unfold scanHeights
  rw [mem_scanLoopAux]
  omega

/-- The scan loop visits heights in strictly increasing order. -/
lemma chain_scanLoopAux (n : Nat) :
    ∀ h : Int, List.Chain' (fun a b => a < b) (scanLoopAux n h) := by
  induction n with
  | zero =>
    intro h
    exact List.chain'_nil
  | succ m ih =>
    intro h
    cases m with
    | zero => exact List.chain'_singleton h
    | succ k =>
      have hh : scanLoopAux (k + 1 + 1) h = h :: scanLoopAux (k + 1) (h + 1) :=
        rfl
      rw [hh]
      have htail := ih (h + 1)
      have hstep : scanLoopAux (k + 1) (h + 1)
          = (h + 1) :: scanLoopAux k (h + 1 + 1) := rfl
      rw [hstep] at htail ⊢
      exact List.chain'_cons.mpr ⟨by omega, htail⟩

/-- C7: `startScanHeight` returns `highestFinalizedL2` on the first
invocation (clearing the flag) and `highestProvenL2 + 1` afterwards;
`endScanHeight` is `highestKnownL2 - l2blockConfirmations`; the scan loop of
`handleMultipleBlock` visits exactly the heights from `startScanHeight` to
`endScanHeight`, in strictly increasing order. -/
theorem C7_scan_window (s : MessageRelayerState) (conf : Int) :
    startScanHeight true s = (s.highestFinalizedL2, false) ∧
    startScanHeight false s = (s.highestProvenL2 + 1, false) ∧
    endScanHeight conf s = s.highestKnownL2 - conf ∧
    (∀ (flag : Bool) (x : Int),
      x ∈ scanHeights (startScanHeight flag s).1 (endScanHeight conf s) ↔
        (startScanHeight flag s).1 ≤ x ∧ x ≤ endScanHeight conf s) ∧
    (∀ flag : Bool, List.Chain' (fun a b => a < b)
      (scanHeights (startScanHeight flag s).1 (endScanHeight conf s))) := by
  refine ⟨rfl, rfl, rfl, fun flag x => mem_scanHeights _ _ _, fun flag => ?_⟩
  unfold scanHeights
  exact chain_scanLoopAux _ _

/-- C8: `isOvertargetGas` holds exactly when
`size * singleCallGas * gasMultiplier` strictly exceeds the target gas; with
target 1,000,000, calibration 100,000 and multiplier 1.1 it is false at batch
size 9 and true at batch size 10. -/
theorem C8_overtarget (targetGas singleCallGas gasMultiplier size : ℚ) :
    (isOvertargetGas targetGas singleCallGas gasMultiplier size = true ↔
      targetGas < size * singleCallGas * gasMultiplier) ∧
    isOvertargetGas 1000000 100000 (11 / 10) 9 = false ∧
    isOvertargetGas 1000000 100000 (11 / 10) 10 = true := by
  have hcomm : singleCallGas * size * gasMultiplier
      = size * singleCallGas * gasMultiplier := by ring
  refine ⟨?_, ?_, ?_⟩
  · simp only [isOvertargetGas, computeExpectedMulticallGas, decide_eq_true_eq,
      hcomm]
  · simp only [isOvertargetGas, computeExpectedMulticallGas]
    rw [decide_eq_false_iff_not]
    norm_num
  · simp only [isOvertargetGas, computeExpectedMulticallGas,
      decide_eq_true_eq]
    norm_num

/-- C1: whenever `highestProvenL2 > latest - reorgSafetyDepth`, `handleL2Reorg`
rewinds the proven watermark to `latest - reorgSafetyDepth`, rolls the
finalized watermark back by exactly the same depth, and records the new head. -/
theorem C1_reorg_rewind (s : MessageRelayerState) (D L : Int)
    (h : L - D < s.highestProvenL2) :
    (handleL2Reorg D s L).highestProvenL2 = L - D ∧
    (handleL2Reorg D s L).highestFinalizedL2 =
      s.highestFinalizedL2 - (s.highestProvenL2 - (L - D)) ∧
    (handleL2Reorg D s L).highestKnownL2 = L := by
  unfold handleL2Reorg
  rw [if_neg (by simpa using h)]
  exact ⟨rfl, rfl, rfl⟩

/-- C1, instantiated at the spec's example scenario: proven 100, finalized 80,
reorg to 90 with safety depth 5 gives proven 85 and finalized 65. -/
theorem C1_reorg_rewind_witness :
    (handleL2Reorg 5 ⟨100, 100, 80⟩ 90).highestProvenL2 = 85 ∧
    (handleL2Reorg 5 ⟨100, 100, 80⟩ 90).highestFinalizedL2 = 65 ∧
    (handleL2Reorg 5 ⟨100, 100, 80⟩ 90).highestKnownL2 = 90 := by
  have h := C1_reorg_rewind ⟨100, 100, 80⟩ 5 90 (by decide)
  refine ⟨?_, ?_, h.2.2⟩
  · rw [h.1]; decide
  · rw [h.2.1]; decide

/-- C9: when `highestProvenL2 ≤ latest - reorgSafetyDepth`, `handleL2Reorg`
only records the new head; both watermarks are left unchanged. -/
theorem C9_reorg_noop (s : MessageRelayerState) (D L : Int)
    (h : s.highestProvenL2 ≤ L - D) :
    handleL2Reorg D s L = { s with highestKnownL2 := L } := by
  unfold handleL2Reorg
  rw [if_pos (by simpa using h)]

/-- C9 witness: a concrete no-op recovery (proven 80, depth 5, head 90). -/
theorem C9_reorg_noop_witness :
    handleL2Reorg 5 ⟨100, 80, 70⟩ 90 = ⟨90, 80, 70⟩ := by
  have h := C9_reorg_noop ⟨100, 80, 70⟩ 5 90 (by decide)
  exact h

/-- When the aggregate estimation oracle fails on every batch, `multicallF`
splits down to singletons and returns every input call, in order, with its
own singleton estimation error, having performed one singleton estimation
per call. -/
lemma multicallF_allFail (errOf : List CallWithMeta → String)
    (hasCallback : Bool) :
    ∀ (fuel : Nat) (calls : List CallWithMeta) (gas : ℚ), calls ≠ [] →
      calls.length ≤ fuel →
      ∃ g, multicallF (fun l => .error (errOf l)) hasCallback fuel gas calls =
        some (.ok (calls.map (fun c => { c with err := some (errOf [c]) }),
          g, calls.length)) := by
  intro fuel
  induction fuel with
  | zero =>
    intro calls gas hne hlen
    cases calls with
    | nil => exact absurd rfl hne
    | cons a t => simp at hlen
  | succ m ih =>
    intro calls gas hne hlen
    by_cases h1 : calls.length = 1
    · obtain ⟨c, rfl⟩ := List.length_eq_one.mp h1
      exact ⟨if msgIncludesAllowance (errOf [c]) then 0 else gas,
        by simp [multicallF]⟩
    · have hn2 : 2 ≤ calls.length := by
        cases calls with
        | nil => exact absurd rfl hne
        | cons a t =>
          cases t with
          | nil => simp at h1
          | cons b t2 =>
            simp only [List.length_cons]
            omega
      have hlf : (splitArray calls).1.length = (calls.length + 1) / 2 := by
        simp [splitArray]
        omega
      have hls : (splitArray calls).2.length
          = calls.length - (calls.length + 1) / 2 := by
        simp [splitArray]
      have hfne : (splitArray calls).1 ≠ [] := by
        intro habs
        rw [habs] at hlf
        simp at hlf
        omega
      have hsne : (splitArray calls).2 ≠ [] := by
        intro habs
        rw [habs] at hls
        simp at hls
        omega
      obtain ⟨g1, hrec1⟩ := ih (splitArray calls).1
        (if msgIncludesAllowance (errOf calls) then 0 else gas) hfne
        (by omega)
      obtain ⟨g2, hrec2⟩ := ih (splitArray calls).2 g1 hsne (by omega)
      refine ⟨g2, ?_⟩
      simp only [multicallF, h1, if_false, hrec1, hrec2]
      rw [← List.map_append]
      have hsplit : (splitArray calls).1 ++ (splitArray calls).2 = calls := by
        simp [splitArray]
      rw [hsplit, hlf, hls]
      have hcount : 0 + (calls.length + 1) / 2
          + (calls.length - (calls.length + 1) / 2) = calls.length := by
        omega
      rw [hcount]

/-- C3: for a non-empty batch under an estimation oracle that fails on every
sub-batch, `multicall` performs exactly one singleton estimation per call and
returns the input list in order, each call's error slot carrying the error of
its own singleton estimation (halving with a ceiling-sized first half,
results concatenated first-half then second-half). -/
theorem C3_halving_converges (errOf : List CallWithMeta → String)
    (hasCallback : Bool) (gas : ℚ) (calls : List CallWithMeta)
    (hne : calls ≠ []) :
    ∃ g, multicall (fun l => .error (errOf l)) hasCallback gas calls =
      some (.ok (calls.map (fun c => { c with err := some (errOf [c]) }),
        g, calls.length)) :=
  multicallF_allFail errOf hasCallback (calls.length + 1) calls gas hne
    (by omega)

/-- Two further concrete pending calls (blocks 3 and 7). -/
def sampleCall2 : CallWithMeta :=
  ⟨"portal", "0xbeef", 3, "0xbbb", "msg1", none⟩

/-- See `sampleCall2`. -/
def sampleCall3 : CallWithMeta :=
  ⟨"portal", "0xcafe", 7, "0xccc", "msg2", none⟩

/-- C3 witness: a three-call batch whose estimations all fail with "revert"
yields the three calls back, in order, with their errors, after exactly three
singleton estimations. -/
theorem C3_halving_converges_witness :
    ([sampleCall, sampleCall2, sampleCall3] ≠ ([] : List CallWithMeta)) ∧
    ∃ g, multicall (fun _ => .error "revert") false 3
        [sampleCall, sampleCall2, sampleCall3] =
      some (.ok ([{ sampleCall with err := some "revert" },
        { sampleCall2 with err := some "revert" },
        { sampleCall3 with err := some "revert" }], g, 3)) := by
  refine ⟨by simp, ?_⟩
  have h := C3_halving_converges (fun _ => "revert") false 3
    [sampleCall, sampleCall2, sampleCall3] (by simp)
  simpa using h

/-- The events through which the program writes the `singleCallGas`
calibration cell: `estFail` is the estimation catch branch of `multicall`
(multicaller.ts lines 52-57, reset to 0 when the message names the
block-gas-limit), `estSuccess` is the estimation success branch (which never
writes the cell), and `singleEstimate` is the scanner's one-off single-call
estimate (prover.ts lines 112-117, performed and stored only when the cell
is 0). -/
inductive GasEvent where
  | estFail (msg : String)
  | estSuccess
  | singleEstimate (g : ℚ)

/-- The effect of one event on `singleCallGas`. -/
def stepGas (gas : ℚ) : GasEvent → ℚ
  | .estFail msg => if msgIncludesAllowance msg then 0 else gas
  | .estSuccess => gas
  | .singleEstimate g => if gas = 0 then g else gas

/-- The calibration value after a sequence of events. -/
def runGas (gas : ℚ) (events : List GasEvent) : ℚ :=
  events.foldl stepGas gas

/-- Whether an event is the scanner's single-call estimate. -/
def isSingleEstimate : GasEvent → Bool
  | .singleEstimate _ => true
  | _ => false

/-- Without a single-call estimate, a zero calibration value stays zero. -/
lemma runGas_stays_zero : ∀ events : List GasEvent,
    (∀ e ∈ events, isSingleEstimate e = false) → runGas 0 events = 0 := by
  intro events
  induction events with
  | nil => intro _; rfl
  | cons e rest ih =>
    intro hall
    have he := hall e (by simp)
    have hrest : ∀ x ∈ rest, isSingleEstimate x = false :=
      fun x hx => hall x (by simp [hx])
    cases e with
    | estFail msg =>
      show runGas (stepGas 0 (.estFail msg)) rest = 0
      have hz : stepGas 0 (GasEvent.estFail msg) = 0 := by
        dsimp [stepGas]
        split <;> rfl
      rw [hz]
      exact ih hrest
    | estSuccess => exact ih hrest
    | singleEstimate g => simp [isSingleEstimate] at he

/-- C6: an estimation failure whose message names the block-gas-limit resets
the calibration value to 0 regardless of its prior value; it then stays 0
across any further events that are not the scanner's single-call estimate;
and the scanner's single-call estimate on a zero cell stores the new
value. -/
theorem C6_calibration_reset (gas : ℚ) (msg : String)
    (events : List GasEvent) (hmsg : msgIncludesAllowance msg = true)
    (hnone : ∀ e ∈ events, isSingleEstimate e = false) :
    stepGas gas (.estFail msg) = 0 ∧
    runGas gas (.estFail msg :: events) = 0 ∧
    ∀ g : ℚ, stepGas 0 (.singleEstimate g) = g := by
  have hstep : stepGas gas (GasEvent.estFail msg) = 0 := by
    dsimp [stepGas]
    rw [if_pos hmsg]
  refine ⟨hstep, ?_, fun g => by simp [stepGas]⟩
  show runGas (stepGas gas (.estFail msg)) events = 0
  rw [hstep]
  exact runGas_stays_zero events hnone

/-- C6 witness: prior calibration 7, the allowance message, then a successful
aggregate estimation and an unrelated failure — the cell becomes and stays
0. -/
theorem C6_calibration_reset_witness :
    (msgIncludesAllowance allowanceMarker = true ∧
      ∀ e ∈ [GasEvent.estSuccess, GasEvent.estFail "revert"],
        isSingleEstimate e = false) ∧
    (stepGas 7 (.estFail allowanceMarker) = 0 ∧
      runGas 7 (.estFail allowanceMarker
        :: [GasEvent.estSuccess, GasEvent.estFail "revert"]) = 0 ∧
      ∀ g : ℚ, stepGas 0 (.singleEstimate g) = g) := by
  refine ⟨⟨by decide, by decide⟩, ?_⟩
  exact C6_calibration_reset 7 allowanceMarker
    [GasEvent.estSuccess, GasEvent.estFail "revert"] (by decide) (by decide)

/-- C10: whenever the aggregate estimation succeeds, `multicall`
unconditionally invokes the callback before returning the empty failed-list
(second conjunct: with a callback supplied it completes and returns `[]`);
since the prover's flushes pass `null` for the callback, the invocation is a
call of `null` and every such flush throws instead of completing (first
conjunct). -/
theorem C10_null_callback_throws (est : List CallWithMeta → Except String ℚ)
    (gas : ℚ) (calls : List CallWithMeta) (g : ℚ)
    (hok : est calls = .ok g) :
    flushMulticall est gas calls =
      some (.error .nullCallbackInvoked) ∧
    multicall est true gas calls =
      some (.ok ([], gas, if calls.length = 1 then 1 else 0)) := by
  constructor
  · simp [flushMulticall, multicall, multicallF, hok]
  · simp [multicall, multicallF, hok]

/-- C10 witness: a singleton flush whose estimation succeeds throws
(`nullCallbackInvoked`), while the same call with a callback returns the
empty failed-list. -/
theorem C10_null_callback_throws_witness :
    ((fun _ : List CallWithMeta => (Except.ok 5 : Except String ℚ))
        [sampleCall] = Except.ok 5) ∧
    flushMulticall (fun _ => Except.ok 5) 2 [sampleCall] =
      some (.error .nullCallbackInvoked) ∧
    multicall (fun _ => Except.ok 5) true 2 [sampleCall] =
      some (.ok ([], 2, 1)) := by
  have h := C10_null_callback_throws (fun _ => Except.ok 5) 2 [sampleCall] 5
    rfl
  refine ⟨rfl, h.1, ?_⟩
  simpa using h.2

end MessageRelayer
